import Mathlib

set_option maxRecDepth 16384

/-!
Verification development for the content-addressed value store in
ion/data/objstore.py: the Python data model and operations are shallowly
embedded as executable Lean definitions, and the spec claims are settled
as theorems about those definitions.

Modelling conventions (kept uniform across the file):
* Python JSON-able values are the inductive PyVal (null, str, int, list,
  dict as an association list in insertion order).
* json.dumps(value, sort_keys=True) is jsonDumps: dict items are sorted
  by key at encode time, separators are the Python 2 defaults (", ", ": "),
  and only the quote and backslash characters are escaped (the values this
  module produces contain no control characters).
* hashlib.sha1(...).hexdigest() is modelled by sha1hex, an injection
  standing in for a digest that the spec trusts to be collision free
  (spec 4.1: identity equality is trusted as content equality).  Taking
  the encoding itself as the digest keeps every definition executable
  while preserving exactly the equalities the code relies on.
* Deferred-based code is modelled with explicit state passing and Except
  for raised exceptions; the two places where the source drops a Deferred
  without yielding it (objstore.py:396 and :552) are modelled explicitly
  and documented at their definitions.
-/

/-- A Python value as handled by ion/data/objstore.py: anything accepted by
json.dumps.  Dicts are association lists in insertion order. -/
inductive PyVal where
  | none
  | str (s : String)
  | int (n : Int)
  | list (xs : List PyVal)
  | dict (kvs : List (String × PyVal))

/-- A Python dict payload (insertion-ordered association list). -/
abbrev PyDict := List (String × PyVal)

/-- JSON string escaping for one character; the module only ever needs the
quote and backslash escapes. -/
def jsonEscapeChar (c : Char) : String :=
  if c = '\"' then "\\\"" else if c = '\\' then "\\\\" else String.singleton c

/-- JSON string escaping, as json.dumps applies to str content. -/
def jsonEscape (s : String) : String :=
  String.join (s.toList.map jsonEscapeChar)

/-- Lexicographic comparison of character lists by code point, the order
Python 2 uses on the ASCII strings this module compares. -/
def charListLe : List Char → List Char → Bool
  | [], _ => true
  | _ :: _, [] => false
  | a :: as, b :: bs =>
    if a.toNat < b.toNat then true
    else if b.toNat < a.toNat then false
    else charListLe as bs

/-- String comparison by code points (an executable model of the ordering
Python applies to str sort keys and json.dumps key sorting). -/
def strLe (a b : String) : Bool := charListLe a.toList b.toList

/-- Stable insertion of a key-value pair into a list sorted by key
(string order, as Python compares str keys). -/
def insertPair (x : String × String) : List (String × String) → List (String × String)
  | [] => [x]
  | y :: ys => if strLe x.1 y.1 then x :: y :: ys else y :: insertPair x ys

/-- Stable sort of dict items by key, as sort_keys=True orders dict items
before encoding.  (Any stable sort by the same key computes the same list,
so insertion sort models the CPython sort exactly.) -/
def sortPairs : List (String × String) → List (String × String)
  | [] => []
  | x :: xs => insertPair x (sortPairs xs)

/-- One encoded dict item, with the Python 2 json.dumps default separator. -/
def pairOut (kv : String × String) : String :=
  "\"" ++ jsonEscape kv.1 ++ "\": " ++ kv.2

mutual
/-- json.dumps(value, sort_keys=True) (objstore.py:46): the canonical
encoding used to compute every identity in the module. -/
def jsonDumps : PyVal → String
  | .none => "null"
  | .str s => "\"" ++ jsonEscape s ++ "\""
  | .int n => toString n
  | .list xs => "[" ++ String.intercalate ", " (jsonList xs) ++ "]"
  | .dict kvs =>
      "\x7b" ++ String.intercalate ", " ((sortPairs (jsonPairs kvs)).map pairOut) ++ "\x7d"

/-- Encodings of the elements of a JSON array. -/
def jsonList : List PyVal → List String
  | [] => []
  | x :: xs => jsonDumps x :: jsonList xs

/-- Dict items with their values encoded (sorting by key happens on this
list, which is faithful because sort_keys orders by key alone). -/
def jsonPairs : List (String × PyVal) → List (String × String)
  | [] => []
  | (k, v) :: kvs => (k, jsonDumps v) :: jsonPairs kvs
end

/-- hashlib.sha1(enc).hexdigest() (objstore.py:48), modelled as an
injection: the spec trusts the digest to be collision free (spec 4.1), so
identifying it with the canonical encoding preserves exactly the identity
equalities the code relies on while keeping definitions executable. -/
def sha1hex (s : String) : String := s

/-- ValueRef._secure_value_hash (objstore.py:38-49): hash of the canonical
JSON encoding with sorted map keys. -/
def secureValueHash (v : PyVal) : String := sha1hex (jsonDumps v)

/-- Errors raised by the embedded operations.  The spec taxonomy (spec 7)
names the RuntimeErrors raised by get_tree_entries/get_commit
TypeMismatchError, the json/pickle failures EncodingError, and the
constructor assertion on nil content InvalidValueError. -/
inductive Err where
  | assertionError
  | runtimeError (msg : String)
  | typeError (msg : String)
  | nameError (msg : String)
  | keyError (key : String)
  | outOfFuel

/-- ValueRef (objstore.py:25-36): a pure handle with an identity and an
optional value type tag. -/
structure ValueRef where
  identity : String
  vtype : Option String

/-- ValueObject as stored: the actual value content plus the identity and
vtype computed at construction (objstore.py:57-87).  TreeValue,
CommitValue and RefValue instances are ValueObjects whose value dict and
vtype discriminate them. -/
structure ValueObject where
  value : PyVal
  identity : String
  vtype : String

/-- The ValueRef a ValueObject hands out (_value_ref, objstore.py:51-55). -/
def valueRefOf (v : ValueObject) : ValueRef :=
  { identity := v.identity, vtype := some v.vtype }

/-- ValueObject.__init__ (objstore.py:67-79): asserts value != None
(only None fails the assert; empty strings, lists and dicts pass), then
computes the identity eagerly from the secure content hash.  Construction
is pure: no store is involved, so the identity exists before any
persistence. -/
def valueObject (value : PyVal) (vtype : String) : Except Err ValueObject :=
  match value with
  | .none => .error .assertionError
  | v => .ok { value := v, identity := secureValueHash v, vtype := vtype }

/-- Python dict update for a single key: replace in place if present,
append otherwise (used to model value[k] = v on a dict built in order). -/
def pyDictSet (d : PyDict) (k : String) (v : PyVal) : PyDict :=
  match d with
  | [] => [(k, v)]
  | (k0, v0) :: rest => if k0 = k then (k, v) :: rest else (k0, v0) :: pyDictSet rest k v

/-- Python dict lookup d[k] as an Option (first match; the dicts built by
this module have unique keys because they are built with pyDictSet). -/
def pyLookup (d : PyDict) (k : String) : Option PyVal :=
  match d with
  | [] => Option.none
  | (k0, v0) :: rest => if k0 = k then some v0 else pyLookup rest k

/-- Python subscript value[k] on a PyVal: KeyError on a dict without the
key, TypeError on a non-dict (the stored trees and commits this module
reads always carry dicts). -/
def pyIndex (v : PyVal) (k : String) : Except Err PyVal :=
  match v with
  | .dict kvs =>
    match pyLookup kvs k with
    | some x => .ok x
    | Option.none => .error (.keyError k)
  | _ => .error (.typeError "value not subscriptable")

/-- Python dict key removal, as dict.pop(k) leaves the dict. -/
def pyDictRemove (d : PyDict) (k : String) : PyDict :=
  match d with
  | [] => []
  | (k0, v0) :: rest => if k0 = k then rest else (k0, v0) :: pyDictRemove rest k

/-- The entry dict a TreeEntry carries (objstore.py:122-136): kwargs
updated with name (defaulting to the ref string) and ref. -/
def treeEntryOf (childref : String) (name : Option String) (kwargs : PyDict) : PyDict :=
  pyDictSet (pyDictSet kwargs "name" (.str (name.getD childref))) "ref" (.str childref)

/-- TreeEntry.__init__ with its assert childref guard: a falsy (empty)
ref fails the assertion. -/
def treeEntryE (childref : String) (name : Option String) (kwargs : PyDict) :
    Except Err PyDict :=
  if childref = "" then .error .assertionError
  else .ok (treeEntryOf childref name kwargs)

/-- The ref string of an entry dict, the sort key of TreeValue.__init__
(objstore.py:116).  Entries built by this module always carry a str ref;
the default is never reached on stored trees. -/
def entryRef (e : PyDict) : String :=
  match pyLookup e "ref" with
  | some (.str s) => s
  | _ => ""

/-- Stable insertion of an entry into a list sorted by ref. -/
def insertEntry (x : PyDict) : List PyDict → List PyDict
  | [] => [x]
  | y :: ys => if strLe (entryRef x) (entryRef y) then x :: y :: ys else y :: insertEntry x ys

/-- crvalue.sort(key=lambda c: c["ref"]) (objstore.py:116): CPython list
sort is stable and keyed by the ref string alone, and any stable sort by
the same key computes the same list, so insertion sort models it exactly. -/
def sortEntries : List PyDict → List PyDict
  | [] => []
  | x :: xs => insertEntry x (sortEntries xs)

/-- A child argument to TreeValue.__init__: either a TreeEntry (whose
entry dict is taken as is) or a plain ref string (wrapped by
TreeEntry(child), objstore.py:111-115). -/
inductive TVChild where
  | entry (e : PyDict)
  | refstr (r : String)

/-- The entry dict a TVChild contributes (total companion of the
conversion in TreeValue.__init__; the refstr case matches TreeEntry(r)
whenever r is nonempty, which holds for every stored identity). -/
def childEntry : TVChild → PyDict
  | .entry e => e
  | .refstr r => treeEntryOf r Option.none []

/-- The conversion performed in the TreeValue.__init__ loop, including the
TreeEntry assertion for the wrapped case. -/
def childEntryE : TVChild → Except Err PyDict
  | .entry e => .ok e
  | .refstr r => treeEntryE r Option.none []

/-- The value dict of a tree: vtype then the ref-sorted children
(objstore.py:109-118). -/
def treeDict (crvalue : List PyDict) : PyDict :=
  pyDictSet (pyDictSet [] "vtype" (.str "T")) "children" (.list ((sortEntries crvalue).map PyVal.dict))

/-- TreeValue.__init__ (objstore.py:89-120): normalize children into entry
dicts, sort them by ref, and build a ValueObject with vtype T. -/
def treeValue (children : List TVChild) : Except Err ValueObject := do
  let crvalue ← children.mapM childEntryE
  valueObject (.dict (treeDict crvalue)) "T"

/-- The value dict of a commit: commit attributes updated with vtype, the
parent identity list, and the roottree ref or null (objstore.py:174-180). -/
def commitDict (roottree : Option String) (parents : List String) (kwargs : PyDict) : PyDict :=
  pyDictSet
    (pyDictSet (pyDictSet kwargs "vtype" (.str "C")) "parents" (.list (parents.map PyVal.str)))
    "roottree"
    (match roottree with | some s => .str s | Option.none => PyVal.none)

/-- CommitValue.__init__ (objstore.py:151-182).  parents arrives already
normalized to a list of identity strings (None and a lone ref become []
and a singleton at the call sites); roottree is an identity string or
None, as _reftostr leaves it. -/
def commitValue (roottree : Option String) (parents : List String) (kwargs : PyDict) :
    Except Err ValueObject :=
  valueObject (.dict (commitDict roottree parents kwargs)) "C"

/-- The ValueObject commitValue always succeeds with (the value dict is
never None). -/
def theCommit (roottree : Option String) (parents : List String) (kwargs : PyDict) :
    ValueObject :=
  { value := .dict (commitDict roottree parents kwargs)
    identity := secureValueHash (.dict (commitDict roottree parents kwargs))
    vtype := "C" }


/-- The ValueObject treeValue builds once its children are entry dicts. -/
def theTree (crvalue : List PyDict) : ValueObject :=
  { value := .dict (treeDict crvalue)
    identity := secureValueHash (.dict (treeDict crvalue))
    vtype := "T" }

/-- The backing key-value store.  Modelled from the spec: ion/data/store.py
is not part of the sources; spec 1 and 6 describe it as a key-value store
with get(key) returning absent for unknown keys and put(key, bytes)
overwriting in place.  pickle.dumps/loads round the stored ValueObject
through bytes unchanged, so the model stores the ValueObject itself. -/
abbrev KVStore := List (String × ValueObject)

/-- Store.get: first match in the association list (keys are unique
because kvPut replaces in place). -/
def kvGet (st : KVStore) (k : String) : Option ValueObject :=
  match st with
  | [] => Option.none
  | (k0, v0) :: rest => if k0 = k then some v0 else kvGet rest k

/-- Store.put: replace the entry for the key in place, append otherwise
(dict assignment semantics). -/
def kvPut (st : KVStore) (k : String) (v : ValueObject) : KVStore :=
  match st with
  | [] => [(k, v)]
  | (k0, v0) :: rest => if k0 = k then (k, v) :: rest else (k0, v0) :: kvPut rest k v

/-- Number of persisted entries under a given identity, to state the
single-copy property of put_value. -/
def countKey (st : KVStore) (k : String) : Nat :=
  match st with
  | [] => 0
  | (k0, _) :: rest => (if k0 = k then 1 else 0) + countKey rest k

/-- An argument to put_value/put_tree: an existing ValueObject, a bare
ValueRef (put_tree only: assumed persisted, not re-put), or a raw value to
be wrapped as a Blob. -/
inductive StoreVal where
  | vo (v : ValueObject)
  | ref (r : ValueRef)
  | raw (p : PyVal)

/-- ValueStore.put_value (objstore.py:244-261).  A ValueObject is written
under its identity (the prior get only logs; the value is re-put, which
overwrites the same entry); any other value is wrapped by
ValueObject(value) first.  A bare ValueRef reaches json.dumps inside
ValueObject and fails to serialize, the EncodingError of spec 7; put_value
is never called that way by this module. -/
def putValue (st : KVStore) (value : StoreVal) : Except Err (KVStore × ValueRef) :=
  match value with
  | .vo v => .ok (kvPut st v.identity v, valueRefOf v)
  | .ref _ => .error (.typeError "not JSON serializable")
  | .raw p => do
      let v ← valueObject p "B"
      .ok (kvPut st v.identity v, valueRefOf v)

/-- ValueStore.get_value (objstore.py:263-269): fetch and unpickle by
identity; absent stays absent. -/
def getValue (st : KVStore) (valid : String) : Option ValueObject :=
  kvGet st valid

/-- get_value applied to an optional ref, as the module does after
_reftostr on values that may be None (absent either way). -/
def getValueO (st : KVStore) (valid : Option String) : Option ValueObject :=
  match valid with
  | Option.none => Option.none
  | some s => kvGet st s

/-- The loop of ValueStore.put_tree (objstore.py:291-307): persist each
child that is a ValueObject or raw value, keep bare refs as they are, and
collect the child identities in order. -/
def putTreeChildren (vs : KVStore) : List StoreVal → Except Err (KVStore × List String)
  | [] => .ok (vs, [])
  | c :: cs =>
    match c with
    | .vo v => do
        let (vs1, _) ← putValue vs (.vo v)
        let (vs2, ids) ← putTreeChildren vs1 cs
        .ok (vs2, v.identity :: ids)
    | .ref r => do
        let (vs2, ids) ← putTreeChildren vs cs
        .ok (vs2, r.identity :: ids)
    | .raw p => do
        let cvo ← valueObject p "B"
        let (vs1, _) ← putValue vs (.vo cvo)
        let (vs2, ids) ← putTreeChildren vs1 cs
        .ok (vs2, cvo.identity :: ids)

/-- ValueStore.put_tree (objstore.py:281-310): persist the children,
build the TreeValue over the collected refs, persist it, and return its
ref. -/
def putTree (vs : KVStore) (childvalues : List StoreVal) : Except Err (KVStore × ValueRef) := do
  let (vs1, childrefs) ← putTreeChildren vs childvalues
  let tv ← treeValue (childrefs.map TVChild.refstr)
  let (vs2, _) ← putValue vs1 (.vo tv)
  .ok (vs2, valueRefOf tv)

/-- ValueStore.get_tree_entries (objstore.py:312-323): absent value gives
None; a stored value that is not a tree raises (RuntimeError in the
source, the TypeMismatchError of the spec taxonomy); otherwise the entry
dicts of the children list. -/
def getTreeEntries (vs : KVStore) (valid : Option String) :
    Except Err (Option (List PyVal)) :=
  match getValueO vs valid with
  | Option.none => .ok Option.none
  | some v =>
    if v.vtype = "T" then do
      let childrenv ← pyIndex v.value "children"
      match childrenv with
      | .list items => .ok (some items)
      | _ => .error (.typeError "children not a list")
    else .error (.runtimeError ("Value " ++ v.identity ++ " is not a tree"))

/-- A tree entry together with its resolved child value, as
get_tree_entriesvalues returns (a TreeEntry instance with .value set). -/
structure ResolvedEntry where
  entry : PyDict
  value : Option ValueObject

/-- TreeEntry.from_entry (objstore.py:138-149) composed with the TreeEntry
constructor: pop ref and name (KeyError when missing), assert the ref is
truthy, default a None name to the ref string, and rebuild the entry dict
from the remaining attributes.  Entries stored by this module always carry
str refs; an int ref would be stringified by _reftostr and other shapes
cannot occur in a stored tree. -/
def fromEntry (child : PyVal) : Except Err PyDict :=
  match child with
  | .dict e => do
      let refv ←
        match pyLookup e "ref" with
        | some v => Except.ok v
        | Option.none => Except.error (Err.keyError "ref")
      let namev ←
        match pyLookup e "name" with
        | some v => Except.ok v
        | Option.none => Except.error (Err.keyError "name")
      let refs ←
        match refv with
        | .str s => if s = "" then Except.error Err.assertionError else Except.ok s
        | .int n => Except.ok (toString n)
        | PyVal.none => Except.error Err.assertionError
        | _ => Except.error (Err.typeError "unstringified ref")
      let namePy : PyVal :=
        match namev with
        | PyVal.none => .str refs
        | v => v
      .ok (pyDictSet (pyDictSet (pyDictRemove (pyDictRemove e "ref") "name") "name" namePy)
            "ref" (.str refs))
  | _ => .error .assertionError

/-- ValueStore.get_tree_entriesvalues (objstore.py:325-339): a None or
empty entry list collapses to None (the Python falsy check), otherwise
each entry is paired with the value fetched under its ref. -/
def getTreeEntriesValues (vs : KVStore) (valid : Option String) :
    Except Err (Option (List ResolvedEntry)) := do
  let cvals ← getTreeEntries vs valid
  match cvals with
  | Option.none => .ok Option.none
  | some [] => .ok Option.none
  | some children => do
      let resvals ← children.mapM (fun child => do
        let refv ←
          match child with
          | .dict e =>
            match pyLookup e "ref" with
            | some v => Except.ok v
            | Option.none => Except.error (Err.keyError "ref")
          | _ => Except.error Err.assertionError
        let refstr : Option String :=
          match refv with
          | .str s => some s
          | .int n => some (toString n)
          | _ => Option.none
        let cval := getValueO vs refstr
        let tentry ← fromEntry child
        Except.ok { entry := tentry, value := cval })
      .ok (some resvals)

/-- ValueStore.put_commit (objstore.py:341-346): build the CommitValue and
persist it, returning its ref. -/
def putCommit (vs : KVStore) (roottreeref : Option String) (parents : List String)
    (kwargs : PyDict) : Except Err (KVStore × ValueRef) := do
  let commit ← commitValue roottreeref parents kwargs
  let (vs1, _) ← putValue vs (.vo commit)
  .ok (vs1, valueRefOf commit)

/-- ValueStore.get_commit (objstore.py:348-356): absent gives None; a
stored value that is not a commit raises (RuntimeError in the source, the
TypeMismatchError of the spec taxonomy). -/
def getCommitM (vs : KVStore) (valid : String) : Except Err (Option ValueObject) :=
  match kvGet vs valid with
  | Option.none => .ok Option.none
  | some v =>
    if v.vtype = "C" then .ok (some v)
    else .error (.runtimeError ("Value " ++ v.identity ++ " is not a commit"))

/-- The roottree ref stored in a commit value dict, as
cval.value["roottree"] reads it (KeyError when absent; commits built by
this module always store a str identity or None there, so other shapes
are unreachable and modelled as absent, which is also where their
stringified lookup would land). -/
def commitRoottree (cv : ValueObject) : Except Err (Option String) :=
  match pyIndex cv.value "roottree" with
  | .error e => .error e
  | .ok (.str s) => .ok (some s)
  | .ok PyVal.none => .ok Option.none
  | .ok _ => .ok Option.none

/-- One stored parent ref read back as a string (commits built by this
module always store str identities). -/
def parentStr (p : PyVal) : Except Err String :=
  match p with
  | .str s => .ok s
  | _ => .error (.typeError "unstringified parent ref")

/-- The parent identity list stored in a commit value dict, as
cvalue.value["parents"] reads it (KeyError when absent; commits built by
this module always store a list of str identities). -/
def commitParents (cv : ValueObject) : Except Err (List String) :=
  match pyIndex cv.value "parents" with
  | .error e => .error e
  | .ok (.list items) => items.mapM parentStr
  | .ok _ => .error (.typeError "parents not a list")

/-- ValueStore.get_commit_root_entriesvalues (objstore.py:358-367). -/
def getCommitRootEntriesValues (vs : KVStore) (valid : String) :
    Except Err (Option (List ResolvedEntry)) := do
  let cval ← getCommitM vs valid
  match cval with
  | Option.none => .ok Option.none
  | some cv => do
      let rt ← commitRoottree cv
      getTreeEntriesValues vs rt

/-- The body of ValueStore._get_ancestors (objstore.py:380-396) as it
executes against a backend whose Deferreds have already fired when they
are yielded (the in-memory Store): although the recursive call at
objstore.py:396 is not yielded, an inlineCallbacks generator over fired
Deferreds runs to completion synchronously at the call, so the descent
into each newly found ancestor completes before the loop continues.  The
visited set keys and the result list thread through the walk exactly as
the mutated dict and list do.  fuel bounds the descent depth: every
descent first marks a previously unvisited identity, so the depth never
exceeds the number of stored values and the fuel passed by getAncestors
is never exhausted on a store this module builds. -/
def ancLoop
    (descend : ValueObject → List String → List ValueObject →
      Except Err (List String × List ValueObject))
    (vs : KVStore) : List String → List String → List ValueObject →
      Except Err (List String × List ValueObject)
  | [], keys, res => .ok (keys, res)
  | anc :: rest, keys, res =>
    if anc ∈ keys then ancLoop descend vs rest keys res
    else
      match getCommitM vs anc with
      | .error e => .error e
      | .ok Option.none => .error .assertionError
      | .ok (some cv) =>
        match descend cv (anc :: keys) (res ++ [cv]) with
        | .error e => .error e
        | .ok (keys2, res2) => ancLoop descend vs rest keys2 res2

/-- One level of ValueStore._get_ancestors: read the parents of the
commit and run the loop over them, each descent going one fuel level
down. -/
def getAncGo : Nat → KVStore → ValueObject → List String → List ValueObject →
    Except Err (List String × List ValueObject)
  | 0, _, _, _, _ => .error .outOfFuel
  | fuel + 1, vs, cv, keys, res =>
    match commitParents cv with
    | .error e => .error e
    | .ok ps => ancLoop (fun cv2 k r => getAncGo fuel vs cv2 k r) vs ps keys res

/-- ValueStore.get_ancestors (objstore.py:369-378) under a synchronous
backend: resolve the commit (None walks nothing, as _get_ancestors
returns at once on a falsy value) and run the sequenced walk over its
parents. -/
def getAncestors (vs : KVStore) (commitref : String) : Except Err (List ValueObject) :=
  match getCommitM vs commitref with
  | .error e => .error e
  | .ok Option.none => .ok []
  | .ok (some cv) =>
    (getAncGo (vs.length + 1) vs cv [] []).map (fun r => r.2)

/-- The synchronous prefix of an unyielded _get_ancestors call: the loop
scans the parents, skips visited ones, and on the first unvisited parent
marks it in keys and suspends at yield self.get_commit(anc)
(objstore.py:391-393), having appended nothing yet. -/
def markFirstUnvisited (keys : List String) : List String → List String
  | [] => keys
  | p :: ps => if p ∈ keys then markFirstUnvisited keys ps else p :: keys

/-- The content of resvalues at the moment the Deferred of get_ancestors
fires, when every backend get takes at least one reactor turn (the spec
treats the backend as asynchronous, spec 1 and 6).  The top-level
_get_ancestors call is yielded (objstore.py:377), so its loop is driven to
completion; but the recursive call at objstore.py:396 is not yielded, so
by the time the top-level loop continues, that call has only executed its
synchronous prefix (markFirstUnvisited), and whatever it appends later
lands after the caller already received the list.  This schedule is exact
for walks in which the top-level loop issues no further backend request
after launching a descent, as in the diamond below: the top level then
finishes inside the same reactor turn, before any response to the
request the descent issued. -/
def atReturnGo (vs : KVStore) (parents : List String) (keys : List String)
    (res : List ValueObject) : Except Err (List String × List ValueObject) :=
  match parents with
  | [] => .ok (keys, res)
  | anc :: rest =>
    if anc ∈ keys then atReturnGo vs rest keys res
    else
      match getCommitM vs anc with
      | .error e => .error e
      | .ok Option.none => .error .assertionError
      | .ok (some cv) =>
        match commitParents cv with
        | .error e => .error e
        | .ok ps => atReturnGo vs rest (markFirstUnvisited (anc :: keys) ps) (res ++ [cv])

/-- get_ancestors as observed by its caller under an asynchronous backend
(see atReturnGo): the list the fired Deferred carries. -/
def ancestorsAtReturn (vs : KVStore) (commitref : String) : Except Err (List ValueObject) :=
  match getCommitM vs commitref with
  | .error e => .error e
  | .ok Option.none => .ok []
  | .ok (some cv) =>
    match commitParents cv with
    | .error e => .error e
    | .ok ps => (atReturnGo vs ps [] []).map (fun r => r.2)

mutual
/-- Modelled from the spec: ion/data/dataobject.py (DataObject) is not
part of the sources.  Spec 6 describes structured values as trees of
named attributes handed back in the same shape, and objstore.py uses
exactly a fresh constructor, set_attr(name, value), an identity
attribute, encode() to a dict, and from_encoding(dict).  A DataObject is
therefore an optional identity plus insertion-ordered named attributes. -/
inductive DataObject where
  | mk (identity : Option String) (attrs : List (String × DOAttr))

/-- An attribute value as _build_value stores them: a plain Python value,
a nested DataObject, a raw TreeValue object (shallow mode,
objstore.py:558), or the un-awaited Deferred of the recursive
_build_value call at objstore.py:552 (its payload records what that
Deferred eventually carries respectively raises). -/
inductive DOAttr where
  | py (v : PyVal)
  | dobj (d : DataObject)
  | vo (v : ValueObject)
  | deferred (res : Except Err (Option DataObject))
end

/-- Association-list get for string-keyed lists (first match). -/
def alGet {α : Type} (l : List (String × α)) (k : String) : Option α :=
  match l with
  | [] => Option.none
  | (k0, v0) :: rest => if k0 = k then some v0 else alGet rest k

/-- Association-list set: replace in place, append otherwise. -/
def alSet {α : Type} (l : List (String × α)) (k : String) (v : α) : List (String × α) :=
  match l with
  | [] => [(k, v)]
  | (k0, v0) :: rest => if k0 = k then (k, v) :: rest else (k0, v0) :: alSet rest k v

/-- Association-list removal of a key (all occurrences, which coincides
with Python dict del on the unique-keyed indexes this module maintains,
since alSet replaces in place). -/
def alRemove {α : Type} (l : List (String × α)) (k : String) : List (String × α) :=
  match l with
  | [] => []
  | (k0, v0) :: rest => if k0 = k then alRemove rest k else (k0, v0) :: alRemove rest k

/-- The identity attribute of a DataObject. -/
def DataObject.identity : DataObject → Option String
  | .mk i _ => i

/-- The named attributes of a DataObject. -/
def DataObject.attrs : DataObject → List (String × DOAttr)
  | .mk _ a => a

/-- Modelled from the spec: DataObject.set_attr(name, value) binds a named
attribute in place. -/
def DataObject.setAttr (d : DataObject) (k : String) (v : DOAttr) : DataObject :=
  .mk d.identity (alSet d.attrs k v)

mutual
/-- Modelled from the spec: DataObject.encode() serializes the attribute
tree into a plain dict (spec 6: the store receives trees of named
attributes); objstore.py:449 hashes and stores this encoding. -/
def DataObject.encode : DataObject → PyVal
  | .mk _ attrs => .dict (encodeAttrs attrs)

/-- Encoded attribute list of a DataObject. -/
def encodeAttrs : List (String × DOAttr) → List (String × PyVal)
  | [] => []
  | (k, a) :: rest => (k, encodeAttr a) :: encodeAttrs rest

/-- Encoding of one attribute value (only plain and nested attributes
occur in values handed to put). -/
def encodeAttr : DOAttr → PyVal
  | .py v => v
  | .dobj d => DataObject.encode d
  | .vo v => v.value
  | .deferred _ => PyVal.none
end

/-- Modelled from the spec: DataObject.from_encoding(dict) rebuilds the
attribute shape from an encoded dict; objstore.py:562-563 then assigns
the identity of the blob it came from. -/
def dataObjectFromEncoding (identity : String) (kvs : PyDict) : DataObject :=
  .mk (some identity) (kvs.map (fun kv => (kv.1, DOAttr.py kv.2)))

/-- ObjectStore state (objstore.py:399-423): the immutable value store
plus the mutable entity index (entity id to head commit identity), two
separate backends. -/
structure ObjectStore where
  vs : KVStore
  entityidx : List (String × String)

/-- A freshly initialized ObjectStore (both backends empty). -/
def osEmpty : ObjectStore := { vs := [], entityidx := [] }

/-- ObjectStore._num_entities (objstore.py:425-429): the number of entity
index entries (keys are unique because alSet replaces in place). -/
def numEntities (os : ObjectStore) : Nat := os.entityidx.length

/-- Python truthiness of an optional string (None and the empty string are
falsy), used for the cref and commit checks in put and get. -/
def optStrTruthy : Option String → Bool
  | Option.none => false
  | some s => s ≠ ""

/-- The shapes ObjectStore.put distinguishes (objstore.py:446-463): a
DataObject, an existing ValueObject (CommitValue and TreeValue are the
vtype C and T cases), or any other raw value. -/
inductive ObjPutInput where
  | dataObject (d : DataObject)
  | vo (v : ValueObject)
  | raw (p : PyVal)

/-- What put_tree(value) receives for a raw value (objstore.py:289-290
with Python 2 iterability): lists spread into their elements, dicts
iterate their keys, and str, int and None are wrapped whole. -/
def rawChildren : PyVal → List StoreVal
  | .list xs => xs.map StoreVal.raw
  | .dict kvs => kvs.map (fun kv => StoreVal.raw (.str kv.1))
  | other => [.raw other]

/-- The roottree computation of ObjectStore.put (objstore.py:446-463):
a DataObject is encoded, stored, and wrapped in a one-entry tree; a
CommitValue contributes its own roottree; a TreeValue is used directly;
any other ValueObject and any raw value is wrapped into a tree. -/
def rootTreeOf (vs : KVStore) (value : ObjPutInput) : Except Err (KVStore × Option String) :=
  match value with
  | .dataObject d => do
      let (vs1, vref) ← putValue vs (.raw (DataObject.encode d))
      let (vs2, tref) ← putTree vs1 [.ref vref]
      .ok (vs2, some tref.identity)
  | .vo v =>
    if v.vtype = "C" then do
      let rt ← commitRoottree v
      .ok (vs, rt)
    else if v.vtype = "T" then
      .ok (vs, some v.identity)
    else do
      let (vs2, tref) ← putTree vs [.vo v]
      .ok (vs2, some tref.identity)
  | .raw p => do
      let (vs2, tref) ← putTree vs (rawChildren p)
      .ok (vs2, some tref.identity)

/-- ObjectStore.put (objstore.py:434-486): build or adopt the roottree,
read the current head for the entity, default the parents to that head
when none were passed and a truthy head exists, create and persist the
commit (with a ts attribute, modelled from the spec as the caller-visible
creation timestamp since ion/util/procutils.py is not part of the
sources), and only then update the entity index to the new commit. -/
def osPut (os : ObjectStore) (key : String) (value : ObjPutInput)
    (parents : Option (List String)) (ts : Int) (kwargs : PyDict) :
    Except Err (ObjectStore × ValueRef) := do
  let (vs1, roottreeref) ← rootTreeOf os.vs value
  let cref := alGet os.entityidx key
  let parents2 : Option (List String) :=
    match cref, parents with
    | some c, Option.none => if c = "" then Option.none else some [c]
    | _, _ => parents
  let (vs2, cr) ← putCommit vs1 roottreeref (parents2.getD []) (pyDictSet kwargs "ts" (.int ts))
  let ei2 := alSet os.entityidx key cr.identity
  .ok ({ vs := vs2, entityidx := ei2 }, cr)

/-- The attribute name of a tree entry, as entry.entry["name"] reads it in
_build_value (objstore.py:546); stored entries always carry a str name. -/
def entryNameOf (e : PyDict) : Except Err String :=
  match pyLookup e "name" with
  | some (.str s) => .ok s
  | some _ => .error (.typeError "attribute name not a str")
  | Option.none => .error (.keyError "name")

/-- The loop of ObjectStore._build_value (objstore.py:544-577).  single
records whether the full entry list has exactly one element (the
len(entries) == 1 check).  A resolved TreeValue child in deep mode fetches
its entries and recurses through the innerBuild callback (the full
_build_value one fuel level down); the recursive call at objstore.py:552
is not yielded, so the Deferred object itself is stored as the attribute
(the DOAttr.deferred payload records what it carries once fired, and the
if vdo check is always true of a Deferred).  A resolved non-tree
ValueObject becomes a DataObject (decoded when its value is a dict,
wrapped under a value attribute otherwise) and is returned directly when
the tree has exactly one entry; an unresolved child raises. -/
def buildLoop (innerBuild : Option (List ResolvedEntry) → Except Err (Option DataObject))
    (vs : KVStore) (deep single : Bool) :
    List ResolvedEntry → DataObject → Except Err DataObject
  | [], dobj => .ok dobj
  | e :: rest, dobj => do
    let valname ← entryNameOf e.entry
    match e.value with
    | some v =>
      if v.vtype = "T" then
        if deep then do
          let tentries ← getTreeEntriesValues vs (some v.identity)
          let inner : Except Err (Option DataObject) := innerBuild tentries
          buildLoop innerBuild vs deep single rest (dobj.setAttr valname (.deferred inner))
        else
          buildLoop innerBuild vs deep single rest (dobj.setAttr valname (.vo v))
      else
        let vdo : DataObject :=
          match v.value with
          | .dict kvs => dataObjectFromEncoding v.identity kvs
          | other => .mk (some v.identity) [("value", .py other)]
        if single then .ok vdo
        else buildLoop innerBuild vs deep single rest (dobj.setAttr valname (.dobj vdo))
    | Option.none => .error (.runtimeError "Unknown value type in store")

/-- ObjectStore._build_value (objstore.py:533-577): a missing or empty
entry list gives None (the falsy check), otherwise the loop above starting
from a fresh DataObject.  fuel bounds the subtree depth; osGet passes one
more than the store size, which no hash-linked (hence acyclic) store can
exhaust. -/
def buildValue : Nat → KVStore → Option (List ResolvedEntry) → Bool →
    Except Err (Option DataObject)
  | 0, _, _, _ => .error .outOfFuel
  | fuel + 1, vs, entries, deep =>
    match entries with
    | Option.none => .ok Option.none
    | some [] => .ok Option.none
    | some es =>
      (buildLoop (fun ents => buildValue fuel vs ents deep) vs deep (es.length == 1) es
        (.mk Option.none [])).map some

/-- The tail of ObjectStore.get once a commit ref is chosen
(objstore.py:529-531): resolve the root entries and build the value
deeply. -/
def osGetAt (vs : KVStore) (cref : String) : Except Err (Option DataObject) := do
  let cvals ← getCommitRootEntriesValues vs cref
  buildValue (vs.length + 1) vs cvals true

/-- ObjectStore.get (objstore.py:513-531): read the head from the entity
index; a truthy commit argument overrides it unconditionally (the index
value is read but discarded); with no override a falsy head returns
absent. -/
def osGet (os : ObjectStore) (key : String) (commit : Option String) :
    Except Err (Option DataObject) :=
  let cref := alGet os.entityidx key
  if optStrTruthy commit then osGetAt os.vs (commit.getD "")
  else if optStrTruthy cref then osGetAt os.vs (cref.getD "")
  else .ok Option.none

/-- ObjectStore.remove (objstore.py:592-601): delete the entity index
entry, then defer.returnValue(dobj) names an undefined variable, so the
call always errbacks with a NameError after the deletion took effect.
The value store is untouched. -/
def osRemove (os : ObjectStore) (key : String) : ObjectStore × Option Err :=
  ({ vs := os.vs, entityidx := alRemove os.entityidx key },
   some (.nameError "global name dobj is not defined"))

/-- ObjectStore.size (objstore.py:603-610): the body is decorated with
defer.inlineCallbacks but contains no yield, so it is not a generator and
the decorator raises TypeError at every call; the count
defer.succeed(self._num_entities()) is computed and discarded, and no
result is ever delivered. -/
def osSize (os : ObjectStore) : Except Err Nat :=
  let _ := numEntities os
  .error (.typeError "inlineCallbacks requires size to produce a generator")

/-- The ordering maintained by sortEntries: entry refs in strLe order. -/
def entLe (a b : PyDict) : Prop := strLe (entryRef a) (entryRef b) = true

/-- The identity each put_tree child contributes (objstore.py:291-307). -/
def childIdOf : StoreVal → String
  | .vo v => v.identity
  | .ref r => r.identity
  | .raw p => secureValueHash p

/-- The diamond DAG of spec 8: commit D has no parents, B has parents [D],
C has parents [B, D], A has parents [B]. -/
def cvD : ValueObject := theCommit Option.none [] []

def cvB : ValueObject := theCommit Option.none [cvD.identity] []

def cvC : ValueObject := theCommit Option.none [cvB.identity, cvD.identity] []

def cvA : ValueObject := theCommit Option.none [cvB.identity] []

/-- The value store holding the diamond commits. -/
def diamondStore : KVStore :=
  kvPut (kvPut (kvPut (kvPut [] cvD.identity cvD) cvB.identity cvB) cvC.identity cvC)
    cvA.identity cvA

/-- put of the raw value "hello" under entity id e on a fresh store. -/
def helloPut : Except Err (ObjectStore × ValueRef) :=
  osPut osEmpty "e" (.raw (.str "hello")) Option.none 0 []

def helloOS : ObjectStore :=
  match helloPut with
  | .ok (os, _) => os
  | .error _ => osEmpty

def helloCref : ValueRef :=
  match helloPut with
  | .ok (_, r) => r
  | .error _ => { identity := "", vtype := Option.none }

/-- The DataObject get returns for the single-leaf hello entity: the leaf
wrapped under a value attribute with the blob identity. -/
def helloWrapped : DataObject :=
  .mk (some (secureValueHash (.str "hello"))) [("value", .py (.str "hello"))]

/-- The head commit object of the hello entity as stored. -/
def helloCommitVO : ValueObject :=
  match kvGet helloOS.vs helloCref.identity with
  | some v => v
  | Option.none => { value := .int 0, identity := "", vtype := "" }

/-- The hello store after remove("e") (entity index entry deleted). -/
def helloRemoved : ObjectStore := (osRemove helloOS "e").1

/-- A second put on the hello entity with no parents argument. -/
def helloPut2 : Except Err (ObjectStore × ValueRef) :=
  osPut helloOS "e" (.raw (.str "v2")) Option.none 1 []

def helloOS2 : ObjectStore :=
  match helloPut2 with
  | .ok (os, _) => os
  | .error _ => osEmpty

def helloCref2 : ValueRef :=
  match helloPut2 with
  | .ok (_, r) => r
  | .error _ => { identity := "", vtype := Option.none }

/-- A store holding one blob, for the type mismatch witness. -/
def blobX : ValueObject :=
  { value := .str "x", identity := secureValueHash (.str "x"), vtype := "B" }

def blobStore : KVStore := kvPut [] blobX.identity blobX

/-- Two tree entries that share the ref r but differ in name. -/
def entA : PyDict := treeEntryOf "r" (some "a") []

def entB : PyDict := treeEntryOf "r" (some "b") []

/-- First put_value of the raw content x on an empty store. -/
def c2put1 : Except Err (KVStore × ValueRef) := putValue [] (.raw (.str "x"))

def c2st1 : KVStore :=
  match c2put1 with
  | .ok (st, _) => st
  | .error _ => []

def c2r1 : ValueRef :=
  match c2put1 with
  | .ok (_, r) => r
  | .error _ => { identity := "", vtype := Option.none }

/-- Second put_value of the same content on the resulting store. -/
def c2put2 : Except Err (KVStore × ValueRef) := putValue c2st1 (.raw (.str "x"))

def c2st2 : KVStore :=
  match c2put2 with
  | .ok (st, _) => st
  | .error _ => []

def c2r2 : ValueRef :=
  match c2put2 with
  | .ok (_, r) => r
  | .error _ => { identity := "", vtype := Option.none }

/-- put_tree of two raw children in both orders, for the permutation
witness. -/
def c3ch1 : List StoreVal := [.raw (.str "u"), .raw (.str "w")]

def c3ch2 : List StoreVal := [.raw (.str "w"), .raw (.str "u")]

def c3r1 : ValueRef :=
  match putTree [] c3ch1 with
  | .ok (_, r) => r
  | .error _ => { identity := "", vtype := Option.none }

def c3st1 : KVStore :=
  match putTree [] c3ch1 with
  | .ok (st, _) => st
  | .error _ => []

def c3r2 : ValueRef :=
  match putTree [] c3ch2 with
  | .ok (_, r) => r
  | .error _ => { identity := "", vtype := Option.none }

def c3st2 : KVStore :=
  match putTree [] c3ch2 with
  | .ok (st, _) => st
  | .error _ => []

theorem commitValue_eq (roottree : Option String) (parents : List String) (kwargs : PyDict) :
    commitValue roottree parents kwargs = .ok (theCommit roottree parents kwargs) := rfl

theorem kvGet_kvPut_self (st : KVStore) (k : String) (v : ValueObject) :
    kvGet (kvPut st k v) k = some v := by
  induction st with
  | nil => simp [kvPut, kvGet]
  | cons a rest ih =>
    obtain ⟨k0, v0⟩ := a
    by_cases h : k0 = k
    · simp [kvPut, kvGet, h]
    · simp [kvPut, kvGet, h, ih]

theorem countKey_kvPut (st : KVStore) (k : String) (v : ValueObject)
    (h : countKey st k ≤ 1) : countKey (kvPut st k v) k = 1 := by
  induction st with
  | nil => simp [kvPut, countKey]
  | cons a rest ih =>
    obtain ⟨k0, v0⟩ := a
    by_cases hk : k0 = k
    · have h2 : countKey rest k = 0 := by
        simp only [countKey, if_pos hk] at h
        omega
      simp [kvPut, countKey, hk, h2]
    · have h2 : countKey rest k ≤ 1 := by
        simp only [countKey, if_neg hk] at h
        omega
      simp only [kvPut, if_neg hk, countKey]
      simpa using ih h2

theorem alGet_alSet_self {α : Type} (l : List (String × α)) (k : String) (v : α) :
    alGet (alSet l k v) k = some v := by
  induction l with
  | nil => simp [alSet, alGet]
  | cons a rest ih =>
    obtain ⟨k0, v0⟩ := a
    by_cases h : k0 = k
    · simp [alSet, alGet, h]
    · simp [alSet, alGet, h, ih]

theorem alGet_alRemove {α : Type} (l : List (String × α)) (k : String) :
    alGet (alRemove l k) k = Option.none := by
  induction l with
  | nil => simp [alRemove, alGet]
  | cons a rest ih =>
    obtain ⟨k0, v0⟩ := a
    by_cases h : k0 = k
    · simpa [alRemove, h] using ih
    · simp [alRemove, alGet, h, ih]

theorem pyLookup_pyDictSet_self (d : PyDict) (k : String) (v : PyVal) :
    pyLookup (pyDictSet d k v) k = some v := by
  induction d with
  | nil => simp [pyDictSet, pyLookup]
  | cons a rest ih =>
    obtain ⟨k0, v0⟩ := a
    by_cases h : k0 = k
    · simp [pyDictSet, pyLookup, h]
    · simp [pyDictSet, pyLookup, h, ih]

theorem pyLookup_pyDictSet_ne (d : PyDict) (k k2 : String) (v : PyVal) (h : k ≠ k2) :
    pyLookup (pyDictSet d k v) k2 = pyLookup d k2 := by
  induction d with
  | nil => simp [pyDictSet, pyLookup, h]
  | cons a rest ih =>
    obtain ⟨k0, v0⟩ := a
    by_cases hk : k0 = k
    · subst hk
      simp [pyDictSet, pyLookup, h]
    · simp [pyDictSet, pyLookup, hk, ih]

theorem mapM_loop_parentStr (ps : List String) (acc : List String) :
    List.mapM.loop parentStr (ps.map PyVal.str) acc = .ok (acc.reverse ++ ps) := by
  induction ps generalizing acc with
  | nil =>
    simp only [List.map_nil, List.mapM.loop, List.append_nil]
    rfl
  | cons p ps ih =>
    simp only [List.map_cons, List.mapM.loop, parentStr, ih, List.reverse_cons,
      List.append_assoc, List.singleton_append]
    rfl

theorem mapM_parentStr (ps : List String) :
    (ps.map PyVal.str).mapM parentStr = .ok ps := by
  simpa using mapM_loop_parentStr ps []

/-- The parents list a commit built by commitValue carries is exactly the
parents it was given. -/
theorem commitParents_theCommit (rt : Option String) (ps : List String) (kw : PyDict) :
    commitParents (theCommit rt ps kw) = .ok ps := by
  have hlook : pyLookup (commitDict rt ps kw) "parents" = some (.list (ps.map PyVal.str)) := by
    unfold commitDict
    rw [pyLookup_pyDictSet_ne _ "roottree" "parents" _ (by decide)]
    exact pyLookup_pyDictSet_self _ _ _
  unfold commitParents theCommit pyIndex
  simp only [hlook]
  exact mapM_parentStr ps

theorem charListLe_total (as bs : List Char) :
    charListLe as bs = true ∨ charListLe bs as = true := by
  induction as generalizing bs with
  | nil => left; rfl
  | cons a as ih =>
    cases bs with
    | nil => right; rfl
    | cons b bs =>
      rcases Nat.lt_trichotomy a.toNat b.toNat with h | h | h
      · left; simp [charListLe, h]
      · have hn1 : ¬ a.toNat < b.toNat := by omega
        have hn2 : ¬ b.toNat < a.toNat := by omega
        rcases ih bs with hh | hh
        · left; simp [charListLe, hn1, hn2, hh]
        · right; simp [charListLe, hn1, hn2, hh]
      · right; simp [charListLe, h]

theorem charListLe_antisymm (as bs : List Char) (h1 : charListLe as bs = true)
    (h2 : charListLe bs as = true) : as = bs := by
  induction as generalizing bs with
  | nil =>
    cases bs with
    | nil => rfl
    | cons b bs => simp [charListLe] at h2
  | cons a as ih =>
    cases bs with
    | nil => simp [charListLe] at h1
    | cons b bs =>
      rcases Nat.lt_trichotomy a.toNat b.toNat with h | h | h
      · have hn : ¬ b.toNat < a.toNat := by omega
        simp [charListLe, hn, h] at h2
      · have hab : a = b := by
          apply Char.ext
          unfold Char.toNat at h
          exact UInt32.toNat.inj h
        have hn1 : ¬ a.toNat < b.toNat := by omega
        have hn2 : ¬ b.toNat < a.toNat := by omega
        simp only [charListLe, if_neg hn1, if_neg hn2] at h1
        simp only [charListLe, if_neg hn2, if_neg hn1] at h2
        rw [hab, ih bs h1 h2]
      · have hn : ¬ a.toNat < b.toNat := by omega
        simp [charListLe, hn, h] at h1

theorem charListLe_trans (as bs cs : List Char) (h1 : charListLe as bs = true)
    (h2 : charListLe bs cs = true) : charListLe as cs = true := by
  induction as generalizing bs cs with
  | nil => rfl
  | cons a as ih =>
    cases bs with
    | nil => simp [charListLe] at h1
    | cons b bs =>
      cases cs with
      | nil => simp [charListLe] at h2
      | cons c cs =>
        rcases Nat.lt_trichotomy a.toNat b.toNat with hab | hab | hab
        · rcases Nat.lt_trichotomy b.toNat c.toNat with hbc | hbc | hbc
          · have : a.toNat < c.toNat := by omega
            simp [charListLe, this]
          · have : a.toNat < c.toNat := by omega
            simp [charListLe, this]
          · have hn : ¬ b.toNat < c.toNat := by omega
            have hcb : c.toNat < b.toNat := hbc
            simp [charListLe, hn, hcb] at h2
        · rcases Nat.lt_trichotomy b.toNat c.toNat with hbc | hbc | hbc
          · have : a.toNat < c.toNat := by omega
            simp [charListLe, this]
          · have hn1 : ¬ a.toNat < c.toNat := by omega
            have hn2 : ¬ c.toNat < a.toNat := by omega
            have hab1 : ¬ a.toNat < b.toNat := by omega
            have hab2 : ¬ b.toNat < a.toNat := by omega
            have hbc1 : ¬ b.toNat < c.toNat := by omega
            have hbc2 : ¬ c.toNat < b.toNat := by omega
            simp only [charListLe, if_neg hab1, if_neg hab2] at h1
            simp only [charListLe, if_neg hbc1, if_neg hbc2] at h2
            simp only [charListLe, if_neg hn1, if_neg hn2]
            exact ih bs cs h1 h2
          · have hn : ¬ b.toNat < c.toNat := by omega
            simp [charListLe, hn, hbc] at h2
        · have hn : ¬ a.toNat < b.toNat := by omega
          simp [charListLe, hn, hab] at h1

theorem strLe_total (a b : String) : strLe a b = true ∨ strLe b a = true :=
  charListLe_total a.toList b.toList

theorem strLe_antisymm (a b : String) (h1 : strLe a b = true) (h2 : strLe b a = true) :
    a = b :=
  String.ext (charListLe_antisymm a.toList b.toList h1 h2)

theorem strLe_trans (a b c : String) (h1 : strLe a b = true) (h2 : strLe b c = true) :
    strLe a c = true :=
  charListLe_trans a.toList b.toList c.toList h1 h2


theorem insertEntry_perm (x : PyDict) (l : List PyDict) :
    (insertEntry x l).Perm (x :: l) := by
  induction l with
  | nil => exact List.Perm.refl _
  | cons y ys ih =>
    simp only [insertEntry]
    by_cases h : strLe (entryRef x) (entryRef y) = true
    · rw [if_pos h]
    · rw [if_neg h]
      exact (ih.cons y).trans (List.Perm.swap x y ys)

theorem sortEntries_perm (l : List PyDict) : (sortEntries l).Perm l := by
  induction l with
  | nil => exact List.Perm.refl _
  | cons x xs ih =>
    simp only [sortEntries]
    exact (insertEntry_perm x (sortEntries xs)).trans (ih.cons x)

theorem insertEntry_pairwise (x : PyDict) (l : List PyDict) (h : l.Pairwise entLe) :
    (insertEntry x l).Pairwise entLe := by
  induction l with
  | nil => simp [insertEntry]
  | cons y ys ih =>
    obtain ⟨hy, hys⟩ := List.pairwise_cons.mp h
    by_cases hxy : strLe (entryRef x) (entryRef y) = true
    · simp only [insertEntry, if_pos hxy]
      refine List.pairwise_cons.mpr ⟨?_, h⟩
      intro b hb
      rcases List.mem_cons.mp hb with rfl | hb2
      · exact hxy
      · exact strLe_trans _ _ _ hxy (hy b hb2)
    · simp only [insertEntry, if_neg hxy]
      refine List.pairwise_cons.mpr ⟨?_, ih hys⟩
      intro b hb
      have hb2 : b = x ∨ b ∈ ys := by
        have := (insertEntry_perm x ys).mem_iff.mp hb
        simpa using this
      rcases hb2 with heq | hb2
      · rw [heq]
        rcases strLe_total (entryRef x) (entryRef y) with hh | hh
        · exact absurd hh hxy
        · exact hh
      · exact hy b hb2

theorem sortEntries_pairwise (l : List PyDict) : (sortEntries l).Pairwise entLe := by
  induction l with
  | nil => simp [sortEntries]
  | cons x xs ih =>
    simp only [sortEntries]
    exact insertEntry_pairwise x (sortEntries xs) ih

/-- Two sorted permutations of the same entries agree when entries that
share a ref are equal (antisymmetry restricted to the elements at hand). -/
theorem eq_of_perm_pairwise_inj (l1 : List PyDict) : ∀ (l2 : List PyDict),
    l1.Perm l2 → l1.Pairwise entLe → l2.Pairwise entLe →
    (∀ a ∈ l1, ∀ b ∈ l1, entryRef a = entryRef b → a = b) → l1 = l2 := by
  induction l1 with
  | nil =>
    intro l2 hp _ _ _
    exact (hp.symm.eq_nil).symm
  | cons a t1 ih =>
    intro l2 hp hs1 hs2 hinj
    cases l2 with
    | nil => exact absurd (hp.eq_nil) (by simp)
    | cons b t2 =>
      have hab : a = b := by
        have haen : a ∈ b :: t2 := hp.mem_iff.mp (List.mem_cons_self a t1)
        have hben : b ∈ a :: t1 := hp.symm.mem_iff.mp (List.mem_cons_self b t2)
        rcases List.mem_cons.mp haen with h | hat2
        · exact h
        · rcases List.mem_cons.mp hben with h | hbt1
          · exact h.symm
          · have h1 : entLe a b := (List.pairwise_cons.mp hs1).1 b hbt1
            have h2 : entLe b a := (List.pairwise_cons.mp hs2).1 a hat2
            have hk : entryRef a = entryRef b := strLe_antisymm _ _ h1 h2
            exact hinj a (List.mem_cons_self a t1) b (List.mem_cons_of_mem a hbt1) hk
      subst hab
      have ht : t1.Perm t2 := hp.cons_inv
      have := ih t2 ht (List.pairwise_cons.mp hs1).2 (List.pairwise_cons.mp hs2).2
        (fun x hx y hy hk =>
          hinj x (List.mem_cons_of_mem a hx) y (List.mem_cons_of_mem a hy) hk)
      rw [this]

/-- The canonical sort of TreeValue.__init__ maps permuted entry lists to
the same list, provided entries sharing a ref are equal. -/
theorem sortEntries_congr (l1 l2 : List PyDict) (hp : l1.Perm l2)
    (hinj : ∀ a ∈ l1, ∀ b ∈ l1, entryRef a = entryRef b → a = b) :
    sortEntries l1 = sortEntries l2 := by
  apply eq_of_perm_pairwise_inj
  · exact (sortEntries_perm l1).trans (hp.trans (sortEntries_perm l2).symm)
  · exact sortEntries_pairwise l1
  · exact sortEntries_pairwise l2
  · intro a ha b hb
    exact hinj a ((sortEntries_perm l1).mem_iff.mp ha) b ((sortEntries_perm l1).mem_iff.mp hb)

theorem excBindOk {α β : Type} (a : α) (f : α → Except Err β) :
    (Except.ok a >>= f) = f a := rfl

theorem excBindErr {α β : Type} (e : Err) (f : α → Except Err β) :
    ((Except.error e : Except Err α) >>= f) = .error e := rfl

theorem valueObject_ok (v : PyVal) (t : String) (vo : ValueObject)
    (h : valueObject v t = .ok vo) :
    vo = { value := v, identity := secureValueHash v, vtype := t } := by
  cases v with
  | none => simp [valueObject] at h
  | str s => exact (Except.ok.inj h).symm
  | int n => exact (Except.ok.inj h).symm
  | list xs => exact (Except.ok.inj h).symm
  | dict kvs => exact (Except.ok.inj h).symm

theorem childEntryE_ok (c : TVChild) (h : c ≠ .refstr "") :
    childEntryE c = .ok (childEntry c) := by
  cases c with
  | entry e => rfl
  | refstr r =>
    have hr : ¬ r = "" := fun hr => h (by rw [hr])
    simp [childEntryE, treeEntryE, hr, childEntry]

theorem mapM_childEntryE_loop (c : List TVChild) (acc : List PyDict) :
    (TVChild.refstr "" ∉ c ∧
      List.mapM.loop childEntryE c acc = .ok (acc.reverse ++ c.map childEntry)) ∨
    (TVChild.refstr "" ∈ c ∧
      List.mapM.loop childEntryE c acc = .error .assertionError) := by
  induction c generalizing acc with
  | nil =>
    left
    refine ⟨by simp, ?_⟩
    simp only [List.map_nil, List.mapM.loop, List.append_nil]
    rfl
  | cons x xs ih =>
    by_cases hx : x = TVChild.refstr ""
    · right
      refine ⟨by simp [hx], ?_⟩
      rw [hx]
      simp only [List.mapM.loop]
      rw [show childEntryE (TVChild.refstr "") = .error .assertionError from rfl]
      rfl
    · have hce : childEntryE x = .ok (childEntry x) := childEntryE_ok x hx
      rcases ih (childEntry x :: acc) with ⟨hmem, hok⟩ | ⟨hmem, herr⟩
      · left
        constructor
        · intro hcon
          rcases List.mem_cons.mp hcon with heq | hmem2
          · exact hx heq.symm
          · exact hmem hmem2
        · simp only [List.mapM.loop, hce]
          rw [excBindOk, hok]
          simp [List.map_cons, List.reverse_cons, List.append_assoc]
      · right
        refine ⟨List.mem_cons_of_mem x hmem, ?_⟩
        simp only [List.mapM.loop, hce]
        rw [excBindOk]
        exact herr

theorem mapM_childEntryE (c : List TVChild) :
    (TVChild.refstr "" ∉ c ∧ c.mapM childEntryE = .ok (c.map childEntry)) ∨
    (TVChild.refstr "" ∈ c ∧ c.mapM childEntryE = .error .assertionError) := by
  simpa [List.mapM] using mapM_childEntryE_loop c []

/-- TreeValue of a permuted child collection: equal whenever entries that
share a ref are equal entries (the stable sort is keyed by ref alone, so
distinct entries under one ref keep their input order). -/
theorem treeValue_congr (c1 c2 : List TVChild) (hp : c1.Perm c2)
    (hinj : ∀ a ∈ c1, ∀ b ∈ c1,
      entryRef (childEntry a) = entryRef (childEntry b) → childEntry a = childEntry b) :
    treeValue c1 = treeValue c2 := by
  rcases mapM_childEntryE c1 with ⟨hm1, hok1⟩ | ⟨hm1, herr1⟩
  · rcases mapM_childEntryE c2 with ⟨_, hok2⟩ | ⟨hmem2, _⟩
    · unfold treeValue
      rw [hok1, hok2, excBindOk, excBindOk]
      have hsort : sortEntries (c1.map childEntry) = sortEntries (c2.map childEntry) := by
        apply sortEntries_congr
        · exact hp.map childEntry
        · intro a ha b hb hk
          obtain ⟨a0, ha0, rfl⟩ := List.mem_map.mp ha
          obtain ⟨b0, hb0, rfl⟩ := List.mem_map.mp hb
          exact hinj a0 ha0 b0 hb0 hk
      have : treeDict (c1.map childEntry) = treeDict (c2.map childEntry) := by
        simp [treeDict, hsort]
      rw [this]
    · exact absurd (hp.mem_iff.mpr hmem2) hm1
  · rcases mapM_childEntryE c2 with ⟨hmem2, _⟩ | ⟨_, herr2⟩
    · exact absurd (hp.mem_iff.mp hm1) hmem2
    · unfold treeValue
      rw [herr1, herr2]


theorem putTreeChildren_ids (ch : List StoreVal) : ∀ (vs st : KVStore) (ids : List String),
    putTreeChildren vs ch = .ok (st, ids) → ids = ch.map childIdOf := by
  induction ch with
  | nil =>
    intro vs st ids h
    have := Except.ok.inj h
    simp [← (Prod.mk.injEq _ _ _ _).mp this |>.2]
  | cons c cs ih =>
    intro vs st ids h
    cases c with
    | vo v =>
      simp only [putTreeChildren, putValue, excBindOk] at h
      cases hrec : putTreeChildren (kvPut vs v.identity v) cs with
      | error e =>
        rw [hrec, excBindErr] at h
        exact absurd h (by simp)
      | ok p =>
        obtain ⟨vs2, ids2⟩ := p
        rw [hrec, excBindOk] at h
        have := (Prod.mk.injEq _ _ _ _).mp (Except.ok.inj h)
        rw [← this.2, List.map_cons, childIdOf]
        rw [ih _ _ _ hrec]
    | ref r =>
      simp only [putTreeChildren] at h
      cases hrec : putTreeChildren vs cs with
      | error e =>
        rw [hrec, excBindErr] at h
        exact absurd h (by simp)
      | ok p =>
        obtain ⟨vs2, ids2⟩ := p
        rw [hrec, excBindOk] at h
        have := (Prod.mk.injEq _ _ _ _).mp (Except.ok.inj h)
        rw [← this.2, List.map_cons, childIdOf]
        rw [ih _ _ _ hrec]
    | raw p =>
      simp only [putTreeChildren] at h
      cases hvo : valueObject p "B" with
      | error e =>
        rw [hvo, excBindErr] at h
        exact absurd h (by simp)
      | ok cvo =>
        rw [hvo, excBindOk] at h
        simp only [putValue, excBindOk] at h
        cases hrec : putTreeChildren (kvPut vs cvo.identity cvo) cs with
        | error e =>
          rw [hrec, excBindErr] at h
          exact absurd h (by simp)
        | ok p2 =>
          obtain ⟨vs2, ids2⟩ := p2
          rw [hrec, excBindOk] at h
          have := (Prod.mk.injEq _ _ _ _).mp (Except.ok.inj h)
          rw [← this.2, List.map_cons, childIdOf]
          rw [ih _ _ _ hrec, valueObject_ok p "B" cvo hvo]

theorem entryRef_refstr (r : String) :
    entryRef (childEntry (TVChild.refstr r)) = r := rfl

/-- put_tree returns the same tree ref for permuted children, regardless
of the starting store state: the ref depends only on the sorted child
identities. -/
theorem putTree_perm_ref (vs1 vs2 : KVStore) (ch1 ch2 : List StoreVal)
    (st1 st2 : KVStore) (r1 r2 : ValueRef) (hp : ch1.Perm ch2)
    (h1 : putTree vs1 ch1 = .ok (st1, r1)) (h2 : putTree vs2 ch2 = .ok (st2, r2)) :
    r1 = r2 := by
  unfold putTree at h1 h2
  cases hc1 : putTreeChildren vs1 ch1 with
  | error e =>
    rw [hc1, excBindErr] at h1
    exact absurd h1 (by simp)
  | ok p1 =>
    obtain ⟨vsa, ids1⟩ := p1
    rw [hc1, excBindOk] at h1
    cases hc2 : putTreeChildren vs2 ch2 with
    | error e =>
      rw [hc2, excBindErr] at h2
      exact absurd h2 (by simp)
    | ok p2 =>
      obtain ⟨vsb, ids2⟩ := p2
      rw [hc2, excBindOk] at h2
      dsimp only at h1 h2
      have hids1 : ids1 = ch1.map childIdOf := putTreeChildren_ids ch1 vs1 vsa ids1 hc1
      have hids2 : ids2 = ch2.map childIdOf := putTreeChildren_ids ch2 vs2 vsb ids2 hc2
      have hperm : (ids1.map TVChild.refstr).Perm (ids2.map TVChild.refstr) := by
        rw [hids1, hids2]
        exact (hp.map childIdOf).map TVChild.refstr
      have htv : treeValue (ids1.map TVChild.refstr) = treeValue (ids2.map TVChild.refstr) := by
        apply treeValue_congr _ _ hperm
        intro a ha b hb hk
        obtain ⟨ra, _, rfl⟩ := List.mem_map.mp ha
        obtain ⟨rb, _, rfl⟩ := List.mem_map.mp hb
        rw [entryRef_refstr, entryRef_refstr] at hk
        rw [hk]
      cases htv1 : treeValue (ids1.map TVChild.refstr) with
      | error e =>
        rw [htv1, excBindErr] at h1
        exact absurd h1 (by simp)
      | ok tv =>
        rw [htv1, excBindOk] at h1
        rw [← htv, htv1, excBindOk] at h2
        simp only [putValue, excBindOk] at h1 h2
        have e1 := (Prod.mk.injEq _ _ _ _).mp (Except.ok.inj h1)
        have e2 := (Prod.mk.injEq _ _ _ _).mp (Except.ok.inj h2)
        rw [← e1.2, ← e2.2]


/-- Claim C1: for every commit DAG reachable from a commit, get_ancestors
returns each ancestor exactly once and only after the whole transitive
walk completed.  The dedup is right: the fully sequenced walk over the
diamond (C with parents [B, D], B with parents [D]) yields exactly B and D
once each.  But the recursive descent at objstore.py:396 is not yielded,
so under an asynchronous backend the Deferred of get_ancestors(C) fires
while the descent into B is still suspended: the caller receives [B]
only, D being appended after the fact.  The first conjunct evaluates the
code at the failing input; the second shows the walk the claim requires. -/
theorem getAncestors_diamond_unsequenced :
    ancestorsAtReturn diamondStore cvC.identity = .ok [cvB] ∧
    getAncestors diamondStore cvC.identity = .ok [cvB, cvD] :=
  ⟨rfl, rfl⟩

/-- Claim C5 counterexample: put(e, "hello") then get(e) does not return
the bare leaf "hello"; it returns a DataObject container whose value
attribute holds "hello" (objstore.py:566-571 wraps the leaf in a fresh
DataObject before the single-entry early return), so the result wraps the
leaf in a container object, contrary to the claim. -/
theorem osGet_single_leaf_wrapped :
    osGet helloOS "e" Option.none = .ok (some helloWrapped) ∧
    helloWrapped.attrs ≠ [] :=
  ⟨rfl, by simp [helloWrapped, DataObject.attrs]⟩

/-- Claim C5 amended: put(e, "hello") then get(e) returns the single-leaf
DataObject directly (not nested under an outer per-entry container): its
identity is the hello blob hash and its sole attribute value holds the
leaf "hello". -/
theorem osGet_single_leaf_returns_wrapped_leaf :
    osGet helloOS "e" Option.none =
      .ok (some (DataObject.mk (some (secureValueHash (.str "hello")))
        [("value", DOAttr.py (.str "hello"))])) := rfl

/-- Claim C9: size() never returns the entity count: the inlineCallbacks
decorator rejects the yield-free body with a TypeError at every call,
while the discarded _num_entities() count after one put is 1. -/
theorem osSize_never_returns :
    osSize helloOS =
      .error (.typeError "inlineCallbacks requires size to produce a generator") ∧
    numEntities helloOS = 1 :=
  ⟨rfl, rfl⟩

/-- Claim C8 counterexample: constructing a Blob from empty (but non-nil)
content succeeds: the guard assert value != None passes for the empty
string, so ValueObject("") computes an identity instead of failing with
an InvalidValueError as claimed. -/
theorem valueObject_empty_succeeds :
    valueObject (.str "") "B" =
      .ok { value := .str "", identity := secureValueHash (.str ""), vtype := "B" } := rfl

/-- Claim C8 amended: Blob construction fails (the assert, the
InvalidValueError of the spec taxonomy) exactly on nil content; every
non-nil content, empty included, succeeds with the identity computed
eagerly at construction, before any persistence (the constructor is pure
and the identity is a field of the returned object). -/
theorem valueObject_nil_only (v : PyVal) (t : String) :
    (v = PyVal.none → valueObject v t = .error .assertionError) ∧
    (v ≠ PyVal.none →
      valueObject v t = .ok { value := v, identity := secureValueHash v, vtype := t }) := by
  constructor
  · intro hv
    rw [hv]
    rfl
  · intro hv
    cases v with
    | none => exact absurd rfl hv
    | str s => rfl
    | int n => rfl
    | list xs => rfl
    | dict kvs => rfl

theorem valueObject_nil_only_witness :
    valueObject (.str "a") "B" =
      .ok { value := .str "a", identity := secureValueHash (.str "a"), vtype := "B" } :=
  (valueObject_nil_only (.str "a") "B").2 (fun h => PyVal.noConfusion h)

/-- Claim C3 counterexample: two TreeEntry children sharing the ref r but
with names a and b: the sort at objstore.py:116 is stable and keyed by
ref alone, so each input order survives into the hashed value and the two
permutations of the same collection get different Tree identities. -/
theorem treeValue_same_ref_order_dependent :
    treeValue [.entry entA, .entry entB] = .ok (theTree [entA, entB]) ∧
    treeValue [.entry entB, .entry entA] = .ok (theTree [entB, entA]) ∧
    (theTree [entA, entB]).identity ≠ (theTree [entB, entA]).identity :=
  ⟨rfl, rfl, by decide⟩

/-- Claim C2: put_value of the same serializable content twice computes
the same identity (the hash of the canonical sorted-key encoding), returns
equal ValueRefs, and leaves exactly one persisted entry under that
identity (the second write overwrites the first in place).  Nil content is
excluded: the constructor assertion rejects it before any identity exists
(spec 4.2); the store is assumed to hold at most one prior entry under
the identity, the invariant every reachable store satisfies. -/
theorem putValue_content_addressed (st : KVStore) (p : PyVal) (st1 st2 : KVStore)
    (r1 r2 : ValueRef) (hnil : p ≠ PyVal.none)
    (hcnt : countKey st (secureValueHash p) ≤ 1)
    (h1 : putValue st (.raw p) = .ok (st1, r1))
    (h2 : putValue st1 (.raw p) = .ok (st2, r2)) :
    r1 = r2 ∧ r1.identity = secureValueHash p ∧
      countKey st2 (secureValueHash p) = 1 := by
  have hvo : valueObject p "B" =
      .ok { value := p, identity := secureValueHash p, vtype := "B" } := by
    cases p with
    | none => exact absurd rfl hnil
    | str s => rfl
    | int n => rfl
    | list xs => rfl
    | dict kvs => rfl
  simp only [putValue, hvo, excBindOk] at h1 h2
  have e1 := (Prod.mk.injEq _ _ _ _).mp (Except.ok.inj h1)
  have e2 := (Prod.mk.injEq _ _ _ _).mp (Except.ok.inj h2)
  refine ⟨?_, ?_, ?_⟩
  · rw [← e1.2, ← e2.2]
  · rw [← e1.2]
    rfl
  · rw [← e2.1, ← e1.1]
    exact countKey_kvPut _ _ _ (le_of_eq (countKey_kvPut _ _ _ hcnt))

theorem putValue_content_addressed_witness :
    c2r1 = c2r2 ∧ c2r1.identity = secureValueHash (.str "x") ∧
      countKey c2st2 (secureValueHash (.str "x")) = 1 :=
  putValue_content_addressed [] (.str "x") c2st1 c2st2 c2r1 c2r2
    (fun h => PyVal.noConfusion h) (by decide) rfl rfl

/-- Claim C3 amended: Tree identity is permutation invariant whenever any
two entries sharing a ref are identical entries; this always holds for
put_tree, whose entries are derived from the child identities alone, so
put_tree of permuted children returns the same tree ref from any store
state.  (The unamended claim fails for TreeValue applied to distinct
TreeEntry objects sharing one ref, see the counterexample.) -/
theorem treeValue_perm_invariant :
    (∀ (c1 c2 : List TVChild), c1.Perm c2 →
      (∀ a ∈ c1, ∀ b ∈ c1,
        entryRef (childEntry a) = entryRef (childEntry b) → childEntry a = childEntry b) →
      treeValue c1 = treeValue c2) ∧
    (∀ (vs1 vs2 : KVStore) (ch1 ch2 : List StoreVal) (st1 st2 : KVStore)
      (r1 r2 : ValueRef),
      ch1.Perm ch2 → putTree vs1 ch1 = .ok (st1, r1) → putTree vs2 ch2 = .ok (st2, r2) →
      r1 = r2) :=
  ⟨fun c1 c2 hp hinj => treeValue_congr c1 c2 hp hinj,
   fun vs1 vs2 ch1 ch2 st1 st2 r1 r2 hp h1 h2 =>
     putTree_perm_ref vs1 vs2 ch1 ch2 st1 st2 r1 r2 hp h1 h2⟩

theorem treeValue_perm_invariant_witness :
    treeValue [TVChild.refstr "p", TVChild.refstr "q"] =
      treeValue [TVChild.refstr "q", TVChild.refstr "p"] ∧
    c3r1 = c3r2 := by
  constructor
  · apply treeValue_perm_invariant.1
    · exact List.Perm.swap _ _ _
    · intro a ha b hb hk
      simp only [List.mem_cons, List.not_mem_nil, or_false] at ha hb
      rcases ha with rfl | rfl <;> rcases hb with rfl | rfl <;>
        first
        | rfl
        | exact absurd hk (by decide)
  · exact treeValue_perm_invariant.2 [] [] c3ch1 c3ch2 c3st1 c3st2 c3r1 c3r2
      (List.Perm.swap _ _ _) rfl rfl

/-- Claim C7: requesting tree entries of a stored non-tree value and
requesting a commit for a stored non-commit value both raise the
RuntimeError that the spec taxonomy names TypeMismatchError, carrying the
identity of the offending value; the error is surfaced, not coerced. -/
theorem typeMismatch_surfaced (vs : KVStore) (i : String) (v : ValueObject)
    (hget : kvGet vs i = some v) :
    (v.vtype ≠ "T" →
      getTreeEntries vs (some i) =
        .error (.runtimeError ("Value " ++ v.identity ++ " is not a tree"))) ∧
    (v.vtype ≠ "C" →
      getCommitM vs i =
        .error (.runtimeError ("Value " ++ v.identity ++ " is not a commit"))) := by
  constructor
  · intro hv
    simp [getTreeEntries, getValueO, hget, hv]
  · intro hv
    simp [getCommitM, hget, hv]

theorem typeMismatch_surfaced_witness :
    getTreeEntries blobStore (some blobX.identity) =
      .error (.runtimeError ("Value " ++ blobX.identity ++ " is not a tree")) ∧
    getCommitM blobStore blobX.identity =
      .error (.runtimeError ("Value " ++ blobX.identity ++ " is not a commit")) := by
  have h := typeMismatch_surfaced blobStore blobX.identity blobX (kvGet_kvPut_self [] _ _)
  exact ⟨h.1 (by decide), h.2 (by decide)⟩

theorem putCommit_eq (vs : KVStore) (rt : Option String) (ps : List String) (kw : PyDict) :
    putCommit vs rt ps kw =
      .ok (kvPut vs (theCommit rt ps kw).identity (theCommit rt ps kw),
        valueRefOf (theCommit rt ps kw)) := rfl

/-- Claim C4: when put is called without a parents argument and the
entity has a (truthy) head h, the commit it persists carries exactly [h]
as its parents, and after the put the entity index maps the entity to the
new commit identity, which is stored in the value store.  Applied twice
from a fresh entity this makes the second commit have exactly the first
commit as its sole parent (see the witness). -/
theorem osPut_autoparent (os : ObjectStore) (key : String) (value : ObjPutInput)
    (ts : Int) (kwargs : PyDict) (h : String) (os2 : ObjectStore) (r : ValueRef)
    (hhead : alGet os.entityidx key = some h) (hne : ¬ h = "")
    (hput : osPut os key value Option.none ts kwargs = .ok (os2, r)) :
    ∃ co : ValueObject, kvGet os2.vs r.identity = some co ∧
      commitParents co = .ok [h] ∧
      alGet os2.entityidx key = some r.identity := by
  unfold osPut at hput
  cases hrt : rootTreeOf os.vs value with
  | error e =>
    rw [hrt, excBindErr] at hput
    exact absurd hput (by simp)
  | ok p =>
    obtain ⟨vs1, rt⟩ := p
    rw [hrt, excBindOk] at hput
    dsimp only at hput
    rw [hhead] at hput
    dsimp only at hput
    rw [if_neg hne] at hput
    rw [putCommit_eq, excBindOk] at hput
    dsimp only at hput
    have e1 := (Prod.mk.injEq _ _ _ _).mp (Except.ok.inj hput)
    refine ⟨theCommit rt [h] (pyDictSet kwargs "ts" (.int ts)), ?_, ?_, ?_⟩
    · rw [← e1.1, ← e1.2]
      exact kvGet_kvPut_self _ _ _
    · exact commitParents_theCommit _ _ _
    · rw [← e1.1, ← e1.2]
      exact alGet_alSet_self _ _ _

theorem osPut_autoparent_witness :
    ∃ co : ValueObject, kvGet helloOS2.vs helloCref2.identity = some co ∧
      commitParents co = .ok [helloCref.identity] ∧
      alGet helloOS2.entityidx "e" = some helloCref2.identity :=
  osPut_autoparent helloOS "e" (.raw (.str "v2")) 1 [] helloCref.identity helloOS2
    helloCref2 rfl (by decide) rfl

/-- Claim C6: remove deletes only the entity index entry: afterwards get
of the entity is absent while the value store is unchanged, so get_value
of the former head commit still returns it.  (The modelled osRemove also
records the NameError the source raises after the deletion,
objstore.py:601; the claim only concerns the resulting state.) -/
theorem osRemove_frame (os : ObjectStore) (e h : String) (cv : ValueObject)
    (hhead : alGet os.entityidx e = some h) (hstored : kvGet os.vs h = some cv) :
    (osRemove os e).1.vs = os.vs ∧
    osGet (osRemove os e).1 e Option.none = .ok Option.none ∧
    getValue (osRemove os e).1.vs h = some cv := by
  refine ⟨rfl, ?_, hstored⟩
  show osGet { vs := os.vs, entityidx := alRemove os.entityidx e } e Option.none =
    .ok Option.none
  simp [osGet, alGet_alRemove, optStrTruthy]

theorem osRemove_frame_witness :
    (osRemove helloOS "e").1.vs = helloOS.vs ∧
    osGet (osRemove helloOS "e").1 "e" Option.none = .ok Option.none ∧
    getValue (osRemove helloOS "e").1.vs helloCref.identity = some helloCommitVO :=
  osRemove_frame helloOS "e" helloCref.identity helloCommitVO rfl rfl

/-- Claim C10: get with a (truthy) commit override reads but discards the
entity index, so its result is the same for any index state and any key
(first conjunct), while get without an override returns absent for a key
with no index entry (second conjunct). -/
theorem osGet_commit_override (vs : KVStore) (ei ei2 : List (String × String))
    (k k2 c : String) (hc : ¬ c = "") :
    osGet { vs := vs, entityidx := ei } k (some c) =
      osGet { vs := vs, entityidx := ei2 } k2 (some c) ∧
    (alGet ei k = Option.none →
      osGet { vs := vs, entityidx := ei } k Option.none = .ok Option.none) := by
  constructor
  · simp [osGet, optStrTruthy, hc]
  · intro hk
    simp [osGet, optStrTruthy, hk]

theorem osGet_commit_override_witness :
    osGet helloRemoved "e" (some helloCref.identity) =
      osGet { vs := helloRemoved.vs, entityidx := [] } "zzz" (some helloCref.identity) ∧
    osGet helloRemoved "e" Option.none = .ok Option.none ∧
    osGet helloRemoved "e" (some helloCref.identity) = .ok (some helloWrapped) := by
  have h := osGet_commit_override helloRemoved.vs helloRemoved.entityidx [] "e" "zzz"
    helloCref.identity (by decide)
  exact ⟨h.1, h.2 rfl, rfl⟩
